import Mathlib

set_option linter.unusedVariables false

/-!
Shallow embedding of the incremental semantic indexing and retrieval core of
the Malawian Educational AI Tutor repository, covering
`malawian_educational_ai_tutor/ingest.py` (word chunker, text extraction
outcome), `malawian_educational_ai_tutor/build_index.py` (fingerprint-driven
incremental build with per-file embedding caches and a flat concatenated
index) and `malawian_educational_ai_tutor/rag_llm.py` (budgeted context
retrieval), together with theorems settling the specification claims.

External collaborators (sentence-transformer embedder, faiss search, the
file system) are passed in as explicit parameters; file contents and stat
results are carried by the `SrcFile` records, and the on-disk JSON / npy
artifacts are modelled as association lists keyed the way the code keys
them.
-/

/-! ## Configuration constants (`config.py`) -/

/-- Configuration constant `CHUNK_SIZE_WORDS = 500` from `config.py`. -/
def CHUNK_SIZE_WORDS : Nat := 500

/-- Configuration constant `CHUNK_OVERLAP_WORDS = 50` from `config.py`. -/
def CHUNK_OVERLAP_WORDS : Nat := 50

/-- Configuration constant `TOP_K_CHUNKS = 5` from `config.py`. -/
def TOP_K_CHUNKS : Nat := 5

/-- Configuration constant `MAX_CONTEXT_CHARS = 6000` from `config.py`. -/
def MAX_CONTEXT_CHARS : Nat := 6000

/-- Configuration constant `EMBEDDING_MODEL_NAME` from `config.py`. -/
def EMBEDDING_MODEL_NAME : String := "sentence-transformers/all-MiniLM-L6-v2"

/-! ## The chunker (`ingest.py`, `chunk_text`) -/

/-- Helper for `pyWords`: Python `str.split()` splits on runs of whitespace
and never yields empty words.  `cur` holds the characters of the word being
accumulated, in reverse. -/
def pyWordsAux : List Char → List Char → List String
  | [], [] => []
  | [], cur => [String.mk cur.reverse]
  | c :: rest, cur =>
    if c.isWhitespace then
      match cur with
      | [] => pyWordsAux rest []
      | _ => String.mk cur.reverse :: pyWordsAux rest []
    else
      pyWordsAux rest (c :: cur)

/-- Python `text.split()` (no separator argument): split on whitespace runs,
dropping empty fragments, as used by `chunk_text` in `ingest.py`. -/
def pyWords (text : String) : List String :=
  pyWordsAux text.data []

/-- The window step of `chunk_text`: `step = max(1, chunk_size_words -
overlap_words)` (`ingest.py` line 129).  With natural-number (truncated)
subtraction this agrees with Python on all non-negative parameters. -/
def chunkStep (chunkSizeWords overlapWords : Nat) : Nat :=
  max 1 (chunkSizeWords - overlapWords)

/-- The `while start < len(words)` loop of `chunk_text` (`ingest.py` lines
131-137), with the accumulated `chunks` list threaded through. -/
def chunkLoop (words : List String) (chunkSizeWords overlapWords : Nat)
    (start : Nat) (chunks : List String) : List String :=
  if h : start < words.length then
    let chunkWords := (words.drop start).take chunkSizeWords
    if chunkWords = [] then
      chunks
    else
      chunkLoop words chunkSizeWords overlapWords
        (start + chunkStep chunkSizeWords overlapWords)
        (chunks ++ [String.intercalate " " chunkWords])
  else
    chunks
termination_by words.length - start
decreasing_by
  have h1 : 1 ≤ chunkStep chunkSizeWords overlapWords := le_max_left 1 _
  omega

/-- `chunk_text(text, chunk_size_words, overlap_words)` from `ingest.py`:
split into words, return `[]` when there are none, otherwise run the
sliding-window loop from `start = 0` with an empty chunk accumulator. -/
def chunkText (text : String) (chunkSizeWords overlapWords : Nat) : List String :=
  let words := pyWords text
  if words = [] then []
  else chunkLoop words chunkSizeWords overlapWords 0 []

/-- Fuel-indexed variant of `chunkLoop`, structurally recursive so that the
kernel can evaluate it on concrete inputs; `chunkLoop_eq_fuel` shows that
`words.length` units of fuel always suffice (the loop terminates within
`|words|` iterations because every iteration advances `start` by at least
one word). -/
def chunkLoopFuel : Nat → List String → Nat → Nat → Nat → List String → List String
  | 0, _, _, _, _, chunks => chunks
  | fuel + 1, words, s, o, start, chunks =>
    if start < words.length then
      let chunkWords := (words.drop start).take s
      if chunkWords = [] then
        chunks
      else
        chunkLoopFuel fuel words s o (start + chunkStep s o)
          (chunks ++ [String.intercalate " " chunkWords])
    else
      chunks

theorem chunkStep_pos (s o : Nat) : 1 ≤ chunkStep s o := le_max_left 1 _

theorem chunkLoop_eq_fuel (fuel : Nat) :
    ∀ (words : List String) (s o start : Nat) (chunks : List String),
      words.length - start ≤ fuel →
      chunkLoop words s o start chunks = chunkLoopFuel fuel words s o start chunks := by
  induction fuel with
  | zero =>
    intro words s o start chunks hle
    rw [chunkLoop]
    have hns : ¬ start < words.length := by omega
    simp [chunkLoopFuel, hns]
  | succ n ih =>
    intro words s o start chunks hle
    rw [chunkLoop]
    by_cases h : start < words.length
    · simp only [chunkLoopFuel, h, dif_pos, if_pos]
      by_cases hcw : (words.drop start).take s = []
      · simp [hcw]
      · simp only [hcw, if_neg, ite_false]
        apply ih
        have := chunkStep_pos s o
        omega
    · simp [chunkLoopFuel, h]

/-- `chunkText` rewritten through the fuel-indexed loop, for concrete
evaluation. -/
theorem chunkText_eval (text : String) (s o : Nat) :
    chunkText text s o =
      (if pyWords text = [] then []
       else chunkLoopFuel (pyWords text).length (pyWords text) s o 0 []) := by
  unfold chunkText
  by_cases h : pyWords text = []
  · simp [h]
  · simp only [h, if_neg, ite_false]
    exact chunkLoop_eq_fuel _ _ _ _ _ _ (by omega)

theorem chunkLoopFuel_length (fuel : Nat) :
    ∀ (words : List String) (s o start : Nat) (chunks : List String),
      (chunkLoopFuel fuel words s o start chunks).length ≤ chunks.length + fuel := by
  induction fuel with
  | zero => intro words s o start chunks; simp [chunkLoopFuel]
  | succ n ih =>
    intro words s o start chunks
    by_cases h : start < words.length
    · simp only [chunkLoopFuel, h, if_pos]
      by_cases hcw : (words.drop start).take s = []
      · simp [hcw]
      · simp only [hcw, if_neg, ite_false]
        have := ih words s o (start + chunkStep s o)
          (chunks ++ [String.intercalate " " ((words.drop start).take s)])
        simp at this
        omega
    · simp [chunkLoopFuel, h]

/-- C9: for every text and every pair of parameters, the chunker window
step `max(1, chunk_size_words - overlap_words)` is at least 1 word, so the
loop terminates, and the resulting finite chunk list has at most one chunk
per word of the input. -/
theorem chunker_terminates (text : String) (s o : Nat) :
    1 ≤ chunkStep s o ∧ (chunkText text s o).length ≤ (pyWords text).length := by
  refine ⟨chunkStep_pos s o, ?_⟩
  rw [chunkText_eval]
  by_cases h : pyWords text = []
  · simp [h]
  · simp only [h, if_neg, ite_false]
    have := chunkLoopFuel_length (pyWords text).length (pyWords text) s o 0 []
    simpa using this

/-- Counterexample to C5 as stated: `"a b c"` has 3 words, which is at most
the chunk size 3, yet `chunk_text` with overlap 2 returns three chunks (the
window step is `max(1, 3-2) = 1`, so trailing suffix windows are also
emitted), not exactly one chunk. -/
theorem chunk_small_input_counterexample :
    (pyWords "a b c").length ≤ 3 ∧
      chunkText "a b c" 3 2 = ["a b c", "b c", "c"] := by
  constructor
  · decide
  · rw [chunkText_eval]; decide

/-- C5 (amended): `chunk_text` of an empty or whitespace-only string is the
empty list, and a text whose word count is at least 1, at most the chunk
size, and at most the window step `max(1, s - o)` yields exactly one chunk:
its words joined by single spaces. -/
theorem chunk_small_input_amended (t : String) (s o : Nat) :
    (pyWords t = [] → chunkText t s o = []) ∧
    (pyWords t ≠ [] → (pyWords t).length ≤ s → (pyWords t).length ≤ chunkStep s o →
      chunkText t s o = [String.intercalate " " (pyWords t)]) := by
  constructor
  · intro h
    unfold chunkText
    simp [h]
  · intro hne hs hstep
    unfold chunkText
    simp only [hne, if_neg, ite_false]
    rw [chunkLoop]
    have hlen : 0 < (pyWords t).length := List.length_pos.mpr hne
    rw [dif_pos hlen]
    have hdrop : (pyWords t).drop 0 = pyWords t := List.drop_zero _
    have htake : ((pyWords t).drop 0).take s = pyWords t := by
      rw [hdrop]; exact List.take_of_length_le hs
    simp only [htake, hne, if_neg, ite_false]
    rw [chunkLoop]
    have hns : ¬ (0 + chunkStep s o < (pyWords t).length) := by omega
    rw [dif_neg hns]
    simp

/-- Witness for the amended C5 at concrete inputs: a whitespace-only string
chunks to `[]`, and the two-word text `"hello world"` with chunk size 2 and
overlap 0 chunks to exactly one chunk. -/
theorem chunk_small_input_amended_witness :
    chunkText "  " 5 2 = [] ∧
      chunkText "hello world" 2 0 = [String.intercalate " " (pyWords "hello world")] :=
  ⟨(chunk_small_input_amended "  " 5 2).1 (by decide),
   (chunk_small_input_amended "hello world" 2 0).2 (by decide) (by decide) (by decide)⟩

/-! ## The retriever (`rag_llm.py`, class `RAGTutor`) -/

/-- One docstore record, as written by `build_or_update_index` (`build_index.py`
lines 150-158) and consumed by `RAGTutor._retrieve_context`. -/
structure ChunkMeta where
  id : String
  text : String
  source_file : String
  chunk_index : Nat
deriving DecidableEq, Repr, Inhabited

/-- Python exception kinds raised by the retriever code. -/
inductive PyError where
  | valueError : String → PyError
  | runtimeError : String → PyError
deriving DecidableEq, Repr

/-- Python truthiness of `not s.strip()`: a string is falsy after stripping
exactly when every character is whitespace (this also covers the empty
string). -/
def pyStripEmpty (s : String) : Bool :=
  s.data.all Char.isWhitespace

/-- The candidate-walking loop of `RAGTutor._retrieve_context` (`rag_llm.py`
lines 82-95): skip out-of-range faiss indices and empty texts, break before a
chunk that would push `total_chars` over the budget while `context_parts` is
already non-empty, otherwise append the chunk.  State threaded:
`(chosen_chunks, context_parts, total_chars)`. -/
def retrieveLoop (docstore : List ChunkMeta) (maxContextChars : Nat) :
    List Int → List ChunkMeta → List String → Nat →
    List ChunkMeta × List String × Nat
  | [], chosenChunks, contextParts, totalChars => (chosenChunks, contextParts, totalChars)
  | idx :: rest, chosenChunks, contextParts, totalChars =>
    if idx < 0 ∨ (docstore.length : Int) ≤ idx then
      retrieveLoop docstore maxContextChars rest chosenChunks contextParts totalChars
    else
      let meta := docstore.getD idx.toNat default
      let text := meta.text
      if text = "" then
        retrieveLoop docstore maxContextChars rest chosenChunks contextParts totalChars
      else if maxContextChars < totalChars + text.length ∧ contextParts ≠ [] then
        (chosenChunks, contextParts, totalChars)
      else
        retrieveLoop docstore maxContextChars rest (chosenChunks ++ [meta])
          (contextParts ++ [text]) (totalChars + text.length)

/-- `RAGTutor._retrieve_context` (`rag_llm.py` lines 59-98).  The embedder and
the faiss search are external collaborators, passed as functions; `search`
returns the ranked candidate row indices (`indices[0]` in the source).  The
`k <= 0` comparison of the source is `k = 0` on naturals. -/
def retrieveContext {V : Type} (embedQuery : String → V)
    (search : V → Nat → List Int) (docstore : List ChunkMeta)
    (topK maxContextChars : Nat) (question : String) :
    Except PyError (String × List ChunkMeta) :=
  if pyStripEmpty question then
    .error (.valueError "Question must not be empty")
  else
    let queryEmbedding := embedQuery question
    let totalChunks := docstore.length
    let k := min topK totalChunks
    if k = 0 then
      .error (.runtimeError "No chunks available in docstore.")
    else
      let idxs := search queryEmbedding k
      let out := retrieveLoop docstore maxContextChars idxs [] [] 0
      .ok (String.intercalate "\n\n" out.2.1, out.1)

/-- The constructor checks of `RAGTutor.__init__` (`rag_llm.py` lines 31-45):
raise `RuntimeError` when either index artifact file is missing, then raise
`RuntimeError` when the loaded docstore is empty; retrieval is only reachable
through a successfully constructed `RAGTutor`. -/
def ragTutorInit (faissIndexFileExists docstoreFileExists : Bool)
    (docstore : List ChunkMeta) : Except PyError (List ChunkMeta) :=
  if !faissIndexFileExists || !docstoreFileExists then
    .error (.runtimeError
      "Vector index not found. Run `python -m malawian_educational_ai_tutor.build_index` first.")
  else if docstore = [] then
    .error (.runtimeError "Vector index is empty. Add textbooks and rebuild the index.")
  else
    .ok docstore

theorem retrieveLoop_total_eq_sum (docstore : List ChunkMeta) (mc : Nat) :
    ∀ (idxs : List Int) (chosen : List ChunkMeta) (parts : List String) (total : Nat),
      total = (parts.map String.length).sum →
      ((retrieveLoop docstore mc idxs chosen parts total).2.2 =
        ((retrieveLoop docstore mc idxs chosen parts total).2.1.map String.length).sum) := by
  intro idxs
  induction idxs with
  | nil => intro chosen parts total h; simpa [retrieveLoop] using h
  | cons idx rest ih =>
    intro chosen parts total h
    rw [retrieveLoop]
    by_cases h1 : idx < 0 ∨ (docstore.length : Int) ≤ idx
    · simp only [h1, if_pos]; exact ih chosen parts total h
    · simp only [h1, if_neg, ite_false]
      by_cases h2 : (docstore.getD idx.toNat default).text = ""
      · simp only [h2, if_pos]; exact ih chosen parts total h
      · simp only [h2, if_neg, ite_false]
        by_cases h3 : mc < total + (docstore.getD idx.toNat default).text.length ∧ parts ≠ []
        · rw [if_pos h3]; exact h
        · rw [if_neg h3]
          apply ih
          simp [h]

theorem retrieveLoop_budget (docstore : List ChunkMeta) (mc : Nat) :
    ∀ (idxs : List Int) (chosen : List ChunkMeta) (parts : List String) (total : Nat),
      total = (parts.map String.length).sum →
      (2 ≤ parts.length → total ≤ mc) →
      (2 ≤ (retrieveLoop docstore mc idxs chosen parts total).2.1.length →
        (retrieveLoop docstore mc idxs chosen parts total).2.2 ≤ mc) := by
  intro idxs
  induction idxs with
  | nil => intro chosen parts total hsum hinv; simpa [retrieveLoop] using hinv
  | cons idx rest ih =>
    intro chosen parts total hsum hinv
    rw [retrieveLoop]
    by_cases h1 : idx < 0 ∨ (docstore.length : Int) ≤ idx
    · simp only [h1, if_pos]; exact ih chosen parts total hsum hinv
    · simp only [h1, if_neg, ite_false]
      by_cases h2 : (docstore.getD idx.toNat default).text = ""
      · simp only [h2, if_pos]; exact ih chosen parts total hsum hinv
      · simp only [h2, if_neg, ite_false]
        by_cases h3 : mc < total + (docstore.getD idx.toNat default).text.length ∧ parts ≠ []
        · rw [if_pos h3]; exact hinv
        · rw [if_neg h3]
          apply ih
          · simp [hsum]
          · intro hlen
            rcases Decidable.not_and_iff_or_not.mp h3 with h4 | h4
            · omega
            · have hpe : parts = [] := by
                by_cases hp : parts = []
                · exact hp
                · exact absurd hp (by simpa using h4)
              subst hpe
              simp at hlen

/-- A faiss candidate index the retrieval loop will actually use: in range
(not `< 0`, not `>= len(docstore)`) and referring to a chunk whose text is
non-empty. -/
abbrev usableIdx (docstore : List ChunkMeta) (idx : Int) : Prop :=
  ¬ (idx < 0 ∨ (docstore.length : Int) ≤ idx) ∧
    (docstore.getD idx.toNat default).text ≠ ""

theorem retrieveLoop_parts_ne (docstore : List ChunkMeta) (mc : Nat) :
    ∀ (idxs : List Int) (chosen : List ChunkMeta) (parts : List String) (total : Nat),
      parts ≠ [] → (retrieveLoop docstore mc idxs chosen parts total).2.1 ≠ [] := by
  intro idxs
  induction idxs with
  | nil => intro chosen parts total h; simpa [retrieveLoop] using h
  | cons idx rest ih =>
    intro chosen parts total h
    rw [retrieveLoop]
    by_cases h1 : idx < 0 ∨ (docstore.length : Int) ≤ idx
    · rw [if_pos h1]; exact ih chosen parts total h
    · rw [if_neg h1]
      by_cases h2 : (docstore.getD idx.toNat default).text = ""
      · rw [if_pos h2]; exact ih chosen parts total h
      · rw [if_neg h2]
        by_cases h3 : mc < total + (docstore.getD idx.toNat default).text.length ∧ parts ≠ []
        · rw [if_pos h3]; exact h
        · rw [if_neg h3]
          exact ih _ _ _ (by simp)

theorem retrieveLoop_head_stable (docstore : List ChunkMeta) (mc : Nat) :
    ∀ (idxs : List Int) (chosen : List ChunkMeta) (parts : List String) (total : Nat),
      parts ≠ [] →
      (retrieveLoop docstore mc idxs chosen parts total).2.1.head? = parts.head? := by
  intro idxs
  induction idxs with
  | nil => intro chosen parts total h; simp [retrieveLoop]
  | cons idx rest ih =>
    intro chosen parts total h
    rw [retrieveLoop]
    by_cases h1 : idx < 0 ∨ (docstore.length : Int) ≤ idx
    · rw [if_pos h1]; exact ih chosen parts total h
    · rw [if_neg h1]
      by_cases h2 : (docstore.getD idx.toNat default).text = ""
      · rw [if_pos h2]; exact ih chosen parts total h
      · rw [if_neg h2]
        by_cases h3 : mc < total + (docstore.getD idx.toNat default).text.length ∧ parts ≠ []
        · rw [if_pos h3]
        · rw [if_neg h3]
          rw [ih _ _ _ (by simp)]
          cases parts with
          | nil => exact absurd rfl h
          | cons p ps => simp

theorem retrieveLoop_usable_nonempty (docstore : List ChunkMeta) (mc : Nat) :
    ∀ (idxs : List Int) (chosen : List ChunkMeta) (parts : List String) (total : Nat),
      (parts ≠ [] ∨ ∃ idx ∈ idxs, usableIdx docstore idx) →
      (retrieveLoop docstore mc idxs chosen parts total).2.1 ≠ [] := by
  intro idxs
  induction idxs with
  | nil =>
    intro chosen parts total h
    rcases h with h | ⟨idx, hmem, _⟩
    · simpa [retrieveLoop] using h
    · simp at hmem
  | cons idx rest ih =>
    intro chosen parts total h
    rw [retrieveLoop]
    by_cases h1 : idx < 0 ∨ (docstore.length : Int) ≤ idx
    · rw [if_pos h1]
      apply ih
      rcases h with h | ⟨j, hmem, hu⟩
      · exact Or.inl h
      · rcases List.mem_cons.mp hmem with rfl | hmem
        · exact absurd h1 hu.1
        · exact Or.inr ⟨j, hmem, hu⟩
    · rw [if_neg h1]
      by_cases h2 : (docstore.getD idx.toNat default).text = ""
      · rw [if_pos h2]
        apply ih
        rcases h with h | ⟨j, hmem, hu⟩
        · exact Or.inl h
        · rcases List.mem_cons.mp hmem with rfl | hmem
          · exact absurd h2 hu.2
          · exact Or.inr ⟨j, hmem, hu⟩
      · rw [if_neg h2]
        by_cases h3 : mc < total + (docstore.getD idx.toNat default).text.length ∧ parts ≠ []
        · rw [if_pos h3]; exact h3.2
        · rw [if_neg h3]
          exact retrieveLoop_parts_ne docstore mc rest _ _ _ (by simp)

/-- C3: starting from the empty context, the retrieval loop keeps the running
character count equal to the total length of the accumulated parts; whenever
it has accumulated two or more parts the total stays within
`max_context_chars` (it stops before any chunk that would overflow a
non-empty context); a usable candidate anywhere in the ranked list guarantees
a non-empty context; and when the first ranked candidate is usable, its text
is the first context part even if its length alone exceeds the budget. -/
theorem retrieve_context_budget (ds : List ChunkMeta) (mc : Nat) (idxs : List Int) :
    ((retrieveLoop ds mc idxs [] [] 0).2.2 =
        ((retrieveLoop ds mc idxs [] [] 0).2.1.map String.length).sum) ∧
    (2 ≤ (retrieveLoop ds mc idxs [] [] 0).2.1.length →
        (retrieveLoop ds mc idxs [] [] 0).2.2 ≤ mc) ∧
    ((∃ idx ∈ idxs, usableIdx ds idx) → (retrieveLoop ds mc idxs [] [] 0).2.1 ≠ []) ∧
    (∀ idx rest, idxs = idx :: rest → usableIdx ds idx →
        (retrieveLoop ds mc idxs [] [] 0).2.1.head? =
          some (ds.getD idx.toNat default).text) := by
  refine ⟨retrieveLoop_total_eq_sum ds mc idxs [] [] 0 (by simp),
    retrieveLoop_budget ds mc idxs [] [] 0 (by simp) (by simp),
    fun h => retrieveLoop_usable_nonempty ds mc idxs [] [] 0 (Or.inr h),
    ?_⟩
  intro idx rest hidxs hu
  subst hidxs
  rw [retrieveLoop]
  rw [if_neg hu.1, if_neg hu.2]
  have h3 : ¬ (mc < 0 + (ds.getD idx.toNat default).text.length ∧
      ([] : List String) ≠ []) := by simp
  rw [if_neg h3]
  rw [retrieveLoop_head_stable ds mc rest _ _ _ (by simp)]
  simp

/-- Witness for C3 at a concrete input: a single candidate whose 8-character
text exceeds the 3-character budget is still included, and is the head of the
context parts. -/
theorem retrieve_context_budget_witness :
    (retrieveLoop [⟨"c0", "aaaaaaaa", "f.txt", 0⟩] 3 [0] [] [] 0).2.1 ≠ [] ∧
      (retrieveLoop [⟨"c0", "aaaaaaaa", "f.txt", 0⟩] 3 [0] [] [] 0).2.1.head? =
        some "aaaaaaaa" :=
  ⟨(retrieve_context_budget [⟨"c0", "aaaaaaaa", "f.txt", 0⟩] 3 [0]).2.2.1
      ⟨0, by decide, by constructor <;> decide⟩,
   (retrieve_context_budget [⟨"c0", "aaaaaaaa", "f.txt", 0⟩] 3 [0]).2.2.2
      0 [] rfl (by constructor <;> decide)⟩

/-- C8: whenever the flat-index file or the docstore file is missing (the
index was never built), or the loaded docstore is empty, constructing the
retriever fails with an explicit `RuntimeError` precondition failure instead
of answering. -/
theorem unbuilt_index_precondition (faissIndexFileExists docstoreFileExists : Bool)
    (docstore : List ChunkMeta)
    (h : faissIndexFileExists = false ∨ docstoreFileExists = false ∨ docstore = []) :
    ∃ msg, ragTutorInit faissIndexFileExists docstoreFileExists docstore =
      .error (.runtimeError msg) := by
  unfold ragTutorInit
  rcases h with h | h | h
  · subst h; exact ⟨_, rfl⟩
  · subst h; simp
  · subst h
    by_cases hf : (!faissIndexFileExists || !docstoreFileExists) = true
    · rw [if_pos hf]; exact ⟨_, rfl⟩
    · rw [if_neg hf]; simp

/-- Witness for C8: a missing index file yields the `RuntimeError`. -/
theorem unbuilt_index_precondition_witness :
    ∃ msg, ragTutorInit false true [⟨"c0", "t", "f.txt", 0⟩] =
      .error (.runtimeError msg) :=
  unbuilt_index_precondition false true [⟨"c0", "t", "f.txt", 0⟩] (Or.inl rfl)

/-- C10: an empty or whitespace-only question makes `_retrieve_context` raise
`ValueError("Question must not be empty")` before the query is embedded or
the index searched: the outcome is the same for every embedder, every search
function and every docstore, so neither collaborator is consulted and no
state is touched. -/
theorem empty_question_value_error {V : Type} (embedQuery : String → V)
    (search : V → Nat → List Int) (docstore : List ChunkMeta)
    (topK maxContextChars : Nat) (question : String)
    (h : pyStripEmpty question = true) :
    retrieveContext embedQuery search docstore topK maxContextChars question =
      .error (.valueError "Question must not be empty") := by
  unfold retrieveContext
  rw [if_pos h]

/-- Witness for C10 at a concrete whitespace-only question. -/
theorem empty_question_value_error_witness :
    retrieveContext (fun q => q.length) (fun _ k => List.range k |>.map Int.ofNat)
        [⟨"c0", "t", "f.txt", 0⟩] 5 6000 "  " =
      .error (.valueError "Question must not be empty") :=
  empty_question_value_error _ _ _ 5 6000 "  " (by decide)

/-! ## Text extraction outcome (`ingest.py`, `load_text_from_file`) -/

/-- Python `reason or "unreadable"`: `None` and the empty string are falsy. -/
def pyOrStr (x : Option String) (fallback : String) : String :=
  match x with
  | none => fallback
  | some s => if s = "" then fallback else s

/-- `load_text_from_file` (`ingest.py` lines 83-110).  The format-specific
loaders are external collaborators; `rawExtract` is their outcome, with
`Except.error reason` standing for the `RuntimeError` / generic-exception
paths that the function catches and turns into `(None, reason)`.  Extracted
text that is empty or whitespace-only becomes
`(None, "File contains no extractable text")`. -/
def load_text_from_file (rawExtract : Except String String) :
    Option String × Option String :=
  match rawExtract with
  | .error reason => (none, some reason)
  | .ok text =>
    if text = "" ∨ pyStripEmpty text then
      (none, some "File contains no extractable text")
    else
      (some text, none)

/-! ## The index builder (`build_index.py`) -/

deriving instance DecidableEq for Except

/-- One record of the persisted fingerprint map
(`file_cache_metadata.json`), as written at `build_index.py` lines 165-171. -/
structure MetaRec where
  path : String
  file_id : String
  mtime_ns : Int
  size : Int
  cache_basename : String
deriving DecidableEq, Repr

/-- A discovered supported source file together with its `stat` result and
the outcome the external text extractor would produce for it. -/
structure SrcFile where
  path : String
  mtime_ns : Int
  size : Int
  rawExtract : Except String String
deriving DecidableEq, Repr

/-- Association-list lookup, modelling Python `dict.get` / file existence
keyed by path or cache basename. -/
def lookupA {α : Type} : List (String × α) → String → Option α
  | [], _ => none
  | (k1, v) :: rest, k => if k = k1 then some v else lookupA rest k

/-- Association-list upsert, modelling Python `dict.__setitem__` (replace in
place, keep insertion order) and overwriting a cache file. -/
def upsertA {α : Type} : List (String × α) → String → α → List (String × α)
  | [], k, v => [(k, v)]
  | (k1, v1) :: rest, k, v =>
    if k1 = k then (k, v) :: rest else (k1, v1) :: upsertA rest k v

/-- `_load_cached_chunks_and_embeddings` (`build_index.py` lines 46-57): if
either the chunk-text artifact or the embedding artifact is absent the
function raises `FileNotFoundError` (modelled as `none`); otherwise both are
returned. -/
def loadCachedChunksAndEmbeddings {V : Type}
    (chunksStore : List (String × List ChunkMeta))
    (embStore : List (String × List V)) (cacheBasename : String) :
    Option (List ChunkMeta × List V) :=
  match lookupA chunksStore cacheBasename, lookupA embStore cacheBasename with
  | some chunks, some embeddings => some (chunks, embeddings)
  | _, _ => none

/-- Per-chunk metadata built at `build_index.py` lines 149-158, one record
per enumerated chunk text (`i` is the running `enumerate` counter). -/
def mkPerFileChunksFrom (fileId pathStr : String) : Nat → List String → List ChunkMeta
  | _, [] => []
  | i, c :: rest =>
    ⟨fileId ++ "::chunk_" ++ toString i, c, pathStr, i⟩ ::
      mkPerFileChunksFrom fileId pathStr (i + 1) rest

/-- The `for idx, chunk in enumerate(chunk_texts)` loop starting at index 0. -/
def mkPerFileChunks (fileId pathStr : String) (chunkTexts : List String) :
    List ChunkMeta :=
  mkPerFileChunksFrom fileId pathStr 0 chunkTexts

/-- `np.vstack`: concatenate the per-file embedding matrices (each a list of
rows) into one matrix. -/
def vstack {V : Type} : List (List V) → List V
  | [] => []
  | m :: rest => m ++ vstack rest

/-- The mutable state threaded through the per-file loop of
`build_or_update_index` (`build_index.py` lines 86-171): the fingerprint map
`existing_meta`, the on-disk per-file cache artifacts, and the accumulators
`all_chunks`, `all_embeddings`, `runtime_unsupported`. -/
structure BuildState (V : Type) where
  existingMeta : List (String × MetaRec)
  chunksStore : List (String × List ChunkMeta)
  embStore : List (String × List V)
  allChunks : List ChunkMeta
  allEmbeddings : List (List V)
  runtimeUnsupported : List (String × String)
deriving DecidableEq, Repr

/-- The "Need to (re)compute" section of the per-file loop body
(`build_index.py` lines 118-171): extract text, record extraction failures
and empty chunkings as runtime-unsupported, otherwise chunk, embed (an
`Except.error` from `encode` is an exception the source does not catch, so
it propagates), persist the per-file cache and upsert the fingerprint
record. -/
def processFileRecompute {V : Type} (encode : List String → Except String (List V))
    (computeFileId : String → String) (chunkSizeWords overlapWords : Nat)
    (st : BuildState V) (f : SrcFile) : Except String (BuildState V) :=
  let pathStr := f.path
  let fileId := computeFileId f.path
  let cacheBasename := fileId
  match load_text_from_file f.rawExtract with
  | (none, reason) =>
    .ok { st with
      runtimeUnsupported :=
        st.runtimeUnsupported ++ [(pathStr, pyOrStr reason "unreadable")] }
  | (some text, _) =>
    let chunkTexts := chunkText text chunkSizeWords overlapWords
    if chunkTexts = [] then
      .ok { st with
        runtimeUnsupported :=
          st.runtimeUnsupported ++ [(pathStr, "no_chunks_after_split")] }
    else
      match encode chunkTexts with
      | .error e => .error e
      | .ok embeddings =>
        let perFileChunks := mkPerFileChunks fileId pathStr chunkTexts
        .ok { st with
          chunksStore := upsertA st.chunksStore cacheBasename perFileChunks
          embStore := upsertA st.embStore cacheBasename embeddings
          allChunks := st.allChunks ++ perFileChunks
          allEmbeddings := st.allEmbeddings ++ [embeddings]
          existingMeta := upsertA st.existingMeta pathStr
            ⟨pathStr, fileId, f.mtime_ns, f.size, cacheBasename⟩ }

/-- The body of the `for path in textbooks` loop of `build_or_update_index`
(`build_index.py` lines 93-171) for one file: consult the fingerprint record
and the cache, reuse the cached pair verbatim on a hit, and fall through to
`processFileRecompute` otherwise.  `computeFileId` models `_compute_file_id`
(a hash of the absolute path). -/
def processFile {V : Type} (encode : List String → Except String (List V))
    (computeFileId : String → String) (chunkSizeWords overlapWords : Nat)
    (st : BuildState V) (f : SrcFile) : Except String (BuildState V) :=
  let pathStr := f.path
  let fileId := computeFileId f.path
  let cacheBasename := fileId
  let previous := lookupA st.existingMeta pathStr
  let cached : Option (List ChunkMeta × List V) :=
    match previous with
    | some m =>
      if m.mtime_ns = f.mtime_ns ∧ m.size = f.size then
        loadCachedChunksAndEmbeddings st.chunksStore st.embStore cacheBasename
      else none
    | none => none
  match cached with
  | some (chunks, emb) =>
    .ok { st with
      allChunks := st.allChunks ++ chunks
      allEmbeddings := st.allEmbeddings ++ [emb] }
  | none =>
    processFileRecompute encode computeFileId chunkSizeWords overlapWords st f

/-- The `for path in textbooks` loop itself; an uncaught exception from
`processFile` aborts the remaining files. -/
def runBuildLoop {V : Type} (encode : List String → Except String (List V))
    (computeFileId : String → String) (chunkSizeWords overlapWords : Nat) :
    List SrcFile → BuildState V → Except String (BuildState V)
  | [], st => .ok st
  | f :: rest, st =>
    match processFile encode computeFileId chunkSizeWords overlapWords st f with
    | .error e => .error e
    | .ok st1 => runBuildLoop encode computeFileId chunkSizeWords overlapWords rest st1

/-- The index metadata persisted to `index_metadata.json`
(`build_index.py` lines 185-221). -/
structure IndexMetadata where
  total_chunks : Nat
  files_indexed : List MetaRec
  embedding_model : String
  index_type : Option String
  index_built : Bool
  unsupported_files : List (String × String)
deriving DecidableEq, Repr

/-- The outcome of a successful `build_or_update_index` call: the returned
metadata, the faiss index rows and docstore as written to disk (`none` when
no index file / docstore is written), and the persisted fingerprint map and
cache artifacts. -/
structure BuildResult (V : Type) where
  metadata : IndexMetadata
  indexRows : Option (List V)
  docstoreWritten : Option (List ChunkMeta)
  fileMeta : List (String × MetaRec)
  chunksStore : List (String × List ChunkMeta)
  embStore : List (String × List V)
deriving DecidableEq, Repr

/-- `build_or_update_index` (`build_index.py` lines 76-223).  `textbooks` and
`unsupportedByExtension` are the two components returned by
`discover_textbook_files`; the chunk size and overlap are the `chunk_text`
defaults from `config.py`.  When `all_embeddings` is empty the metadata marks
the index as not built and neither the index file nor the docstore is
written; otherwise the per-file embedding blocks are stacked into the flat
index and the docstore is written in the same concatenation order. -/
def build_or_update_index {V : Type} (encode : List String → Except String (List V))
    (computeFileId : String → String) (textbooks : List SrcFile)
    (unsupportedByExtension : List String)
    (existingMeta0 : List (String × MetaRec))
    (chunksStore0 : List (String × List ChunkMeta))
    (embStore0 : List (String × List V)) : Except String (BuildResult V) :=
  let st0 : BuildState V := ⟨existingMeta0, chunksStore0, embStore0, [], [], []⟩
  match runBuildLoop encode computeFileId CHUNK_SIZE_WORDS CHUNK_OVERLAP_WORDS
      textbooks st0 with
  | .error e => .error e
  | .ok st =>
    let unsupportedFiles := st.runtimeUnsupported ++
      unsupportedByExtension.map (fun p => (p, "extension_not_in_[txt,pdf,doc,docx]"))
    if st.allEmbeddings.isEmpty then
      .ok ⟨⟨0, [], EMBEDDING_MODEL_NAME, none, false, unsupportedFiles⟩,
        none, none, st.existingMeta, st.chunksStore, st.embStore⟩
    else
      .ok ⟨⟨st.allChunks.length, st.existingMeta.map Prod.snd, EMBEDDING_MODEL_NAME,
          some "IndexFlatIP_normalized", true, unsupportedFiles⟩,
        some (vstack st.allEmbeddings), some st.allChunks,
        st.existingMeta, st.chunksStore, st.embStore⟩

theorem lookupA_upsertA {α : Type} (l : List (String × α)) (k k1 : String) (v : α) :
    lookupA (upsertA l k v) k1 = if k1 = k then some v else lookupA l k1 := by
  induction l with
  | nil => simp [upsertA, lookupA]
  | cons hd tl ih =>
    obtain ⟨k2, v2⟩ := hd
    by_cases h2 : k2 = k
    · subst h2
      simp only [upsertA, if_pos rfl]
      by_cases h1 : k1 = k2
      · subst h1; simp [lookupA]
      · simp [lookupA, h1]
    · simp only [upsertA, if_neg h2]
      by_cases h1 : k1 = k2
      · subst h1
        have : ¬ k1 = k := h2
        simp [lookupA, this]
      · simp only [lookupA, if_neg h1]
        exact ih

theorem vstack_append_singleton {V : Type} (l : List (List V)) (m : List V) :
    vstack (l ++ [m]) = vstack l ++ m := by
  induction l with
  | nil => simp [vstack]
  | cons hd tl ih => simp [vstack, ih]

theorem mkPerFileChunksFrom_text (fileId pathStr : String) :
    ∀ (i : Nat) (ts : List String),
      (mkPerFileChunksFrom fileId pathStr i ts).map (fun ch => ch.text) = ts := by
  intro i ts
  induction ts generalizing i with
  | nil => simp [mkPerFileChunksFrom]
  | cons c rest ih => simp [mkPerFileChunksFrom, ih]

theorem mkPerFileChunksFrom_ne_nil (fileId pathStr : String) (i : Nat)
    (ts : List String) (h : ts ≠ []) :
    mkPerFileChunksFrom fileId pathStr i ts ≠ [] := by
  cases ts with
  | nil => exact absurd rfl h
  | cons c rest => simp [mkPerFileChunksFrom]

/-- C6: loading the per-file embedding cache reports a miss (the
`FileNotFoundError` path) exactly when either the chunk-text artifact or the
embedding artifact is absent — a partial cache is a full miss — and when both
are present it returns both verbatim. -/
theorem cache_partial_miss {V : Type} (chunksStore : List (String × List ChunkMeta))
    (embStore : List (String × List V)) (cacheBasename : String) :
    (loadCachedChunksAndEmbeddings chunksStore embStore cacheBasename = none ↔
      lookupA chunksStore cacheBasename = none ∨
        lookupA embStore cacheBasename = none) ∧
    (∀ chunks embeddings, lookupA chunksStore cacheBasename = some chunks →
      lookupA embStore cacheBasename = some embeddings →
      loadCachedChunksAndEmbeddings chunksStore embStore cacheBasename =
        some (chunks, embeddings)) := by
  constructor
  · unfold loadCachedChunksAndEmbeddings
    cases hc : lookupA chunksStore cacheBasename with
    | none => simp
    | some c =>
      cases he : lookupA embStore cacheBasename with
      | none => simp
      | some e => simp
  · intro chunks embeddings hc he
    unfold loadCachedChunksAndEmbeddings
    rw [hc, he]

/-- Witness for C6 at concrete stores: with the chunk artifact present and the
embedding artifact absent, the load is a full miss; with both present, both
come back. -/
theorem cache_partial_miss_witness :
    loadCachedChunksAndEmbeddings [("fid", [⟨"fid::chunk_0", "hello", "f.txt", 0⟩])]
        ([] : List (String × List Nat)) "fid" = none ∧
      loadCachedChunksAndEmbeddings [("fid", [⟨"fid::chunk_0", "hello", "f.txt", 0⟩])]
        [("fid", [7])] "fid" =
        some ([⟨"fid::chunk_0", "hello", "f.txt", 0⟩], [7]) :=
  ⟨(cache_partial_miss [("fid", [⟨"fid::chunk_0", "hello", "f.txt", 0⟩])]
      ([] : List (String × List Nat)) "fid").1.mpr (Or.inr rfl),
   (cache_partial_miss [("fid", [⟨"fid::chunk_0", "hello", "f.txt", 0⟩])]
      [("fid", [7])] "fid").2 _ _ rfl rfl⟩

/-- C2: a file is treated as unchanged exactly when a persisted fingerprint
record for its path has both `mtime_ns` and `size` equal to the current stat
values.  When unchanged and both cache artifacts load, the cached chunks and
embeddings are appended verbatim — for every embedder `encode`, so neither
the chunker nor the embedder is invoked and no artifact is rewritten.  On a
mismatching or absent record (even with cache artifacts present) the file is
re-chunked via `chunk_text` and re-embedded via `encode`, and its cache and
fingerprint record are rewritten. -/
theorem fingerprint_cache_reuse {V : Type}
    (encode : List String → Except String (List V))
    (computeFileId : String → String) (s o : Nat) (st : BuildState V)
    (f : SrcFile) :
    (∀ m chunks emb, lookupA st.existingMeta f.path = some m →
      m.mtime_ns = f.mtime_ns → m.size = f.size →
      loadCachedChunksAndEmbeddings st.chunksStore st.embStore
        (computeFileId f.path) = some (chunks, emb) →
      processFile encode computeFileId s o st f =
        .ok { st with
          allChunks := st.allChunks ++ chunks
          allEmbeddings := st.allEmbeddings ++ [emb] }) ∧
    ((∀ m, lookupA st.existingMeta f.path = some m →
        ¬ (m.mtime_ns = f.mtime_ns ∧ m.size = f.size)) →
      ∀ text es, f.rawExtract = .ok text → ¬ (text = "" ∨ pyStripEmpty text) →
      chunkText text s o ≠ [] → encode (chunkText text s o) = .ok es →
      processFile encode computeFileId s o st f =
        .ok { existingMeta := upsertA st.existingMeta f.path
                ⟨f.path, computeFileId f.path, f.mtime_ns, f.size, computeFileId f.path⟩
              chunksStore := upsertA st.chunksStore (computeFileId f.path)
                (mkPerFileChunks (computeFileId f.path) f.path (chunkText text s o))
              embStore := upsertA st.embStore (computeFileId f.path) es
              allChunks := st.allChunks ++
                mkPerFileChunks (computeFileId f.path) f.path (chunkText text s o)
              allEmbeddings := st.allEmbeddings ++ [es]
              runtimeUnsupported := st.runtimeUnsupported }) := by
  constructor
  · intro m chunks emb hprev hmt hsz hload
    unfold processFile
    simp only [hprev, hload, if_pos (And.intro hmt hsz)]
  · intro hdirty text es hraw hne hchunks hencode
    unfold processFile
    have hcached :
        (match lookupA st.existingMeta f.path with
          | some m =>
            if m.mtime_ns = f.mtime_ns ∧ m.size = f.size then
              loadCachedChunksAndEmbeddings st.chunksStore st.embStore
                (computeFileId f.path)
            else none
          | none => none) = (none : Option (List ChunkMeta × List V)) := by
      cases hprev : lookupA st.existingMeta f.path with
      | none => rfl
      | some m => simp [if_neg (hdirty m hprev)]
    simp only [hcached]
    unfold processFileRecompute
    have hload : load_text_from_file (Except.ok text) = (some text, none) := by
      simp only [load_text_from_file]
      rw [if_neg hne]
    simp only [hraw, hload, if_neg hchunks, hencode]

/-- Witness for C2: one file whose stat matches the persisted record and
whose cache artifacts are present is reused verbatim by `processFile`. -/
theorem fingerprint_cache_reuse_witness :
    processFile (fun ts => Except.ok (ts.map String.length)) (fun _ => "fid")
      CHUNK_SIZE_WORDS CHUNK_OVERLAP_WORDS
      ⟨[("f.txt", ⟨"f.txt", "fid", 1, 2, "fid"⟩)],
        [("fid", [⟨"fid::chunk_0", "hello", "f.txt", 0⟩])],
        [("fid", [5])], [], [], []⟩
      ⟨"f.txt", 1, 2, Except.ok "hello"⟩ =
      .ok ⟨[("f.txt", ⟨"f.txt", "fid", 1, 2, "fid"⟩)],
        [("fid", [⟨"fid::chunk_0", "hello", "f.txt", 0⟩])],
        [("fid", [5])], [⟨"fid::chunk_0", "hello", "f.txt", 0⟩], [[5]], []⟩ :=
  (fingerprint_cache_reuse (fun ts => Except.ok (ts.map String.length))
      (fun _ => "fid") CHUNK_SIZE_WORDS CHUNK_OVERLAP_WORDS
      ⟨[("f.txt", ⟨"f.txt", "fid", 1, 2, "fid"⟩)],
        [("fid", [⟨"fid::chunk_0", "hello", "f.txt", 0⟩])],
        [("fid", [5])], [], [], []⟩
      ⟨"f.txt", 1, 2, Except.ok "hello"⟩).1
    ⟨"f.txt", "fid", 1, 2, "fid"⟩ [⟨"fid::chunk_0", "hello", "f.txt", 0⟩] [5]
    rfl rfl rfl rfl

theorem processFileRecompute_ok {V : Type}
    (encode : List String → Except String (List V))
    (computeFileId : String → String) (s o : Nat) (st : BuildState V)
    (f : SrcFile) (hencode : ∀ ts, ∃ es, encode ts = Except.ok es) :
    ∃ st1, processFileRecompute encode computeFileId s o st f = .ok st1 := by
  unfold processFileRecompute
  cases hload : load_text_from_file f.rawExtract with
  | mk t r =>
    cases t with
    | none => simp only [hload]; exact ⟨_, rfl⟩
    | some text =>
      simp only [hload]
      by_cases hchunks : chunkText text s o = []
      · rw [if_pos hchunks]; exact ⟨_, rfl⟩
      · rw [if_neg hchunks]
        obtain ⟨es, hes⟩ := hencode (chunkText text s o)
        simp only [hes]
        exact ⟨_, rfl⟩

theorem processFile_ok {V : Type}
    (encode : List String → Except String (List V))
    (computeFileId : String → String) (s o : Nat) (st : BuildState V)
    (f : SrcFile) (hencode : ∀ ts, ∃ es, encode ts = Except.ok es) :
    ∃ st1, processFile encode computeFileId s o st f = .ok st1 := by
  unfold processFile
  cases hprev : lookupA st.existingMeta f.path with
  | none =>
    simp only [hprev]
    exact processFileRecompute_ok encode computeFileId s o st f hencode
  | some m =>
    by_cases hms : m.mtime_ns = f.mtime_ns ∧ m.size = f.size
    · cases hload : loadCachedChunksAndEmbeddings st.chunksStore st.embStore
          (computeFileId f.path) with
      | none =>
        simp only [hprev, if_pos hms, hload]
        exact processFileRecompute_ok encode computeFileId s o st f hencode
      | some pair =>
        obtain ⟨c, e⟩ := pair
        simp only [hprev, if_pos hms, hload]
        exact ⟨_, rfl⟩
    · simp only [hprev, if_neg hms]
      exact processFileRecompute_ok encode computeFileId s o st f hencode

theorem runBuildLoop_ok {V : Type}
    (encode : List String → Except String (List V))
    (computeFileId : String → String) (s o : Nat)
    (hencode : ∀ ts, ∃ es, encode ts = Except.ok es) :
    ∀ (textbooks : List SrcFile) (st : BuildState V),
      ∃ st1, runBuildLoop encode computeFileId s o textbooks st = .ok st1 := by
  intro textbooks
  induction textbooks with
  | nil => intro st; exact ⟨st, rfl⟩
  | cons f rest ih =>
    intro st
    obtain ⟨st1, h1⟩ := processFile_ok encode computeFileId s o st f hencode
    simp only [runBuildLoop, h1]
    exact ih st1

/-- C4 (amended): extraction failure of a single file is isolated — the file
is recorded in the runtime-unsupported list with its reason and skipped, and
as long as the embedder itself never raises, no file ever aborts the per-file
loop.  An embedding failure, by contrast, is NOT isolated (see
`embedding_failure_aborts_build`): `embedder.encode` is called outside any
try/except, so its exception propagates out of the whole build. -/
theorem extraction_failure_isolated {V : Type}
    (encode : List String → Except String (List V))
    (computeFileId : String → String) (s o : Nat)
    (hencode : ∀ ts, ∃ es, encode ts = Except.ok es) :
    (∀ (textbooks : List SrcFile) (st : BuildState V),
      ∃ st1, runBuildLoop encode computeFileId s o textbooks st = .ok st1) ∧
    (∀ (st : BuildState V) (f : SrcFile) (reason : String),
      f.rawExtract = .error reason →
      lookupA st.existingMeta f.path = none →
      processFile encode computeFileId s o st f =
        .ok { st with
          runtimeUnsupported := st.runtimeUnsupported ++
            [(f.path, pyOrStr (some reason) "unreadable")] }) := by
  constructor
  · exact runBuildLoop_ok encode computeFileId s o hencode
  · intro st f reason hraw hprev
    unfold processFile
    simp only [hprev]
    unfold processFileRecompute
    have hload : load_text_from_file (Except.error reason) = (none, some reason) := rfl
    simp only [hraw, hload]

/-- Witness for the amended C4: a single file whose PDF extraction fails is
recorded with its reason and the loop still completes successfully. -/
theorem extraction_failure_isolated_witness :
    (∃ st1, runBuildLoop (fun ts => Except.ok (ts.map String.length))
      (fun _ => "fid") CHUNK_SIZE_WORDS CHUNK_OVERLAP_WORDS
      [⟨"/books/bad.pdf", 3, 9, Except.error "Missing dependency for PDF support"⟩]
      ⟨[], [], [], [], [], []⟩ = .ok st1) ∧
    processFile (fun ts => Except.ok (ts.map String.length)) (fun _ => "fid")
      CHUNK_SIZE_WORDS CHUNK_OVERLAP_WORDS ⟨[], [], [], [], [], []⟩
      ⟨"/books/bad.pdf", 3, 9, Except.error "Missing dependency for PDF support"⟩ =
      .ok ⟨[], [], [], [], [],
        [("/books/bad.pdf", "Missing dependency for PDF support")]⟩ :=
  ⟨(extraction_failure_isolated (fun ts => Except.ok (ts.map String.length))
      (fun _ => "fid") CHUNK_SIZE_WORDS CHUNK_OVERLAP_WORDS
      (fun ts => ⟨ts.map String.length, rfl⟩)).1
      [⟨"/books/bad.pdf", 3, 9, Except.error "Missing dependency for PDF support"⟩]
      ⟨[], [], [], [], [], []⟩,
   (extraction_failure_isolated (fun ts => Except.ok (ts.map String.length))
      (fun _ => "fid") CHUNK_SIZE_WORDS CHUNK_OVERLAP_WORDS
      (fun ts => ⟨ts.map String.length, rfl⟩)).2
      ⟨[], [], [], [], [], []⟩
      ⟨"/books/bad.pdf", 3, 9, Except.error "Missing dependency for PDF support"⟩
      "Missing dependency for PDF support" rfl rfl⟩

/-- Counterexample to C4 as stated: with one dirty text file and an embedder
whose call raises, the whole build aborts with that error — the embedding
failure is not recorded-and-skipped, because `embedder.encode`
(`build_index.py` lines 140-146) is invoked outside any try/except. -/
theorem embedding_failure_aborts_build :
    build_or_update_index
      (fun _ => (Except.error "embedding failed" : Except String (List Nat)))
      (fun _ => "fid") [⟨"/books/a.txt", 1, 5, Except.ok "hello world"⟩]
      [] [] [] [] = Except.error "embedding failed" := by
  have hc : chunkText "hello world" CHUNK_SIZE_WORDS CHUNK_OVERLAP_WORDS =
      ["hello world"] := by
    rw [chunkText_eval]; decide
  have hload : load_text_from_file (Except.ok "hello world") =
      (some "hello world", none) := by decide
  unfold build_or_update_index
  simp only [runBuildLoop, processFile, processFileRecompute, lookupA, hload, hc]
  decide

theorem loadCached_inv {V : Type} (cs : List (String × List ChunkMeta))
    (es : List (String × List V)) (b : String) (c : List ChunkMeta) (e : List V)
    (h : loadCachedChunksAndEmbeddings cs es b = some (c, e)) :
    lookupA cs b = some c ∧ lookupA es b = some e := by
  unfold loadCachedChunksAndEmbeddings at h
  cases hc : lookupA cs b with
  | none => rw [hc] at h; cases h
  | some c1 =>
    cases he : lookupA es b with
    | none => rw [hc, he] at h; cases h
    | some e1 =>
      rw [hc, he] at h
      have h2 : c1 = c ∧ e1 = e := by simpa using h
      exact ⟨by rw [h2.1], by rw [h2.2]⟩

/-- Inversion principle for one iteration of the per-file loop: a successful
`processFile` step either reused the cache verbatim, only recorded a
runtime-unsupported entry, or re-chunked and re-embedded the file and rewrote
its cache artifacts and fingerprint record. -/
theorem processFile_cases {V : Type}
    (encode : List String → Except String (List V))
    (computeFileId : String → String) (s o : Nat) (st : BuildState V)
    (f : SrcFile) (st1 : BuildState V)
    (hok : processFile encode computeFileId s o st f = .ok st1) :
    (∃ chunks emb, lookupA st.chunksStore (computeFileId f.path) = some chunks ∧
      lookupA st.embStore (computeFileId f.path) = some emb ∧
      st1 = { st with
        allChunks := st.allChunks ++ chunks
        allEmbeddings := st.allEmbeddings ++ [emb] }) ∨
    (∃ entry, st1 = { st with
      runtimeUnsupported := st.runtimeUnsupported ++ [entry] }) ∨
    (∃ text es, encode (chunkText text s o) = .ok es ∧ chunkText text s o ≠ [] ∧
      st1 = { existingMeta := upsertA st.existingMeta f.path
                ⟨f.path, computeFileId f.path, f.mtime_ns, f.size, computeFileId f.path⟩
              chunksStore := upsertA st.chunksStore (computeFileId f.path)
                (mkPerFileChunks (computeFileId f.path) f.path (chunkText text s o))
              embStore := upsertA st.embStore (computeFileId f.path) es
              allChunks := st.allChunks ++
                mkPerFileChunks (computeFileId f.path) f.path (chunkText text s o)
              allEmbeddings := st.allEmbeddings ++ [es]
              runtimeUnsupported := st.runtimeUnsupported }) := by
  have hrec : ∀ st2, processFileRecompute encode computeFileId s o st f = .ok st2 →
      (∃ entry, st2 = { st with
        runtimeUnsupported := st.runtimeUnsupported ++ [entry] }) ∨
      (∃ text es, encode (chunkText text s o) = .ok es ∧ chunkText text s o ≠ [] ∧
        st2 = { existingMeta := upsertA st.existingMeta f.path
                  ⟨f.path, computeFileId f.path, f.mtime_ns, f.size, computeFileId f.path⟩
                chunksStore := upsertA st.chunksStore (computeFileId f.path)
                  (mkPerFileChunks (computeFileId f.path) f.path (chunkText text s o))
                embStore := upsertA st.embStore (computeFileId f.path) es
                allChunks := st.allChunks ++
                  mkPerFileChunks (computeFileId f.path) f.path (chunkText text s o)
                allEmbeddings := st.allEmbeddings ++ [es]
                runtimeUnsupported := st.runtimeUnsupported }) := by
    intro st2 hrok
    cases hload : load_text_from_file f.rawExtract with
    | mk t r =>
      cases t with
      | none =>
        have heq : processFileRecompute encode computeFileId s o st f =
            .ok { st with runtimeUnsupported :=
              st.runtimeUnsupported ++ [(f.path, pyOrStr r "unreadable")] } := by
          unfold processFileRecompute
          simp only [hload]
        rw [heq] at hrok
        injection hrok with h
        exact Or.inl ⟨_, h.symm⟩
      | some text =>
        by_cases hchunks : chunkText text s o = []
        · have heq : processFileRecompute encode computeFileId s o st f =
              .ok { st with runtimeUnsupported :=
                st.runtimeUnsupported ++ [(f.path, "no_chunks_after_split")] } := by
            unfold processFileRecompute
            simp only [hload]
            rw [if_pos hchunks]
          rw [heq] at hrok
          injection hrok with h
          exact Or.inl ⟨_, h.symm⟩
        · cases henc : encode (chunkText text s o) with
          | error e =>
            have heq : processFileRecompute encode computeFileId s o st f =
                .error e := by
              unfold processFileRecompute
              simp only [hload]
              rw [if_neg hchunks]
              simp only [henc]
            rw [heq] at hrok
            cases hrok
          | ok es =>
            have heq : processFileRecompute encode computeFileId s o st f =
                .ok { existingMeta := upsertA st.existingMeta f.path
                        ⟨f.path, computeFileId f.path, f.mtime_ns, f.size,
                          computeFileId f.path⟩
                      chunksStore := upsertA st.chunksStore (computeFileId f.path)
                        (mkPerFileChunks (computeFileId f.path) f.path
                          (chunkText text s o))
                      embStore := upsertA st.embStore (computeFileId f.path) es
                      allChunks := st.allChunks ++
                        mkPerFileChunks (computeFileId f.path) f.path
                          (chunkText text s o)
                      allEmbeddings := st.allEmbeddings ++ [es]
                      runtimeUnsupported := st.runtimeUnsupported } := by
              unfold processFileRecompute
              simp only [hload]
              rw [if_neg hchunks]
              simp only [henc]
            rw [heq] at hrok
            injection hrok with h
            exact Or.inr ⟨text, es, henc, hchunks, h.symm⟩
  unfold processFile at hok
  cases hprev : lookupA st.existingMeta f.path with
  | none =>
    simp only [hprev] at hok
    rcases hrec st1 hok with h | h
    · exact Or.inr (Or.inl h)
    · exact Or.inr (Or.inr h)
  | some m =>
    simp only [hprev] at hok
    by_cases hms : m.mtime_ns = f.mtime_ns ∧ m.size = f.size
    · rw [if_pos hms] at hok
      cases hload : loadCachedChunksAndEmbeddings st.chunksStore st.embStore
          (computeFileId f.path) with
      | none =>
        rw [hload] at hok
        rcases hrec st1 hok with h | h
        · exact Or.inr (Or.inl h)
        · exact Or.inr (Or.inr h)
      | some pair =>
        obtain ⟨c, e⟩ := pair
        rw [hload] at hok
        obtain ⟨h1, h2⟩ := loadCached_inv st.chunksStore st.embStore
          (computeFileId f.path) c e hload
        have h3 : (Except.ok { st with
              allChunks := st.allChunks ++ c
              allEmbeddings := st.allEmbeddings ++ [e] } :
            Except String (BuildState V)) = Except.ok st1 := hok
        injection h3 with h
        exact Or.inl ⟨c, e, h1, h2, h.symm⟩
    · rw [if_neg hms] at hok
      rcases hrec st1 hok with h | h
      · exact Or.inr (Or.inl h)
      · exact Or.inr (Or.inr h)

/-- Every chunk-cache artifact ever written by the build is non-empty
(`_save_cached_chunks_and_embeddings` is only reached with a non-empty
`chunk_texts`), and a state with no accumulated chunks has no accumulated
embedding blocks. -/
def NonemptyCacheInv {V : Type} (st : BuildState V) : Prop :=
  (∀ b c, lookupA st.chunksStore b = some c → c ≠ []) ∧
    (st.allChunks = [] → st.allEmbeddings = [])

theorem processFile_nonempty_inv {V : Type}
    (encode : List String → Except String (List V))
    (computeFileId : String → String) (s o : Nat) (st : BuildState V)
    (f : SrcFile) (st1 : BuildState V)
    (hok : processFile encode computeFileId s o st f = .ok st1)
    (hinv : NonemptyCacheInv st) : NonemptyCacheInv st1 := by
  obtain ⟨hwf, hemp⟩ := hinv
  rcases processFile_cases encode computeFileId s o st f st1 hok with
    ⟨c, e, hc, _, rfl⟩ | ⟨entry, rfl⟩ | ⟨text, es, _, hne, rfl⟩
  · refine ⟨hwf, ?_⟩
    intro h
    have : c = [] := (List.append_eq_nil.mp h).2
    exact absurd this (hwf _ _ hc)
  · exact ⟨hwf, hemp⟩
  · constructor
    · intro b c hb
      rw [lookupA_upsertA] at hb
      by_cases hbk : b = computeFileId f.path
      · rw [if_pos hbk] at hb
        injection hb with hb1
        rw [← hb1]
        exact mkPerFileChunksFrom_ne_nil _ _ _ _ hne
      · rw [if_neg hbk] at hb
        exact hwf _ _ hb
    · intro h
      have : mkPerFileChunks (computeFileId f.path) f.path (chunkText text s o) = [] :=
        (List.append_eq_nil.mp h).2
      exact absurd this (mkPerFileChunksFrom_ne_nil _ _ _ _ hne)

theorem runBuildLoop_nonempty_inv {V : Type}
    (encode : List String → Except String (List V))
    (computeFileId : String → String) (s o : Nat) :
    ∀ (textbooks : List SrcFile) (st st1 : BuildState V),
      runBuildLoop encode computeFileId s o textbooks st = .ok st1 →
      NonemptyCacheInv st → NonemptyCacheInv st1 := by
  intro textbooks
  induction textbooks with
  | nil =>
    intro st st1 hok hinv
    injection hok with h
    rw [← h]
    exact hinv
  | cons f rest ih =>
    intro st st1 hok hinv
    unfold runBuildLoop at hok
    cases hpf : processFile encode computeFileId s o st f with
    | error e => rw [hpf] at hok; cases hok
    | ok st2 =>
      rw [hpf] at hok
      exact ih st2 st1 hok
        (processFile_nonempty_inv encode computeFileId s o st f st2 hpf hinv)

/-- C7: whenever a build completes normally with a total chunk count of zero,
the returned metadata marks the index as not built, and neither a faiss index
nor a docstore is written.  The hypothesis on `chunksStore0` records that
every persisted chunk-cache artifact is non-empty, which is how the build
itself writes them. -/
theorem empty_build_not_built {V : Type}
    (encode : List String → Except String (List V))
    (computeFileId : String → String) (textbooks : List SrcFile)
    (unsupportedByExtension : List String)
    (existingMeta0 : List (String × MetaRec))
    (chunksStore0 : List (String × List ChunkMeta))
    (embStore0 : List (String × List V))
    (hwf : ∀ b c, lookupA chunksStore0 b = some c → c ≠ [])
    (r : BuildResult V)
    (hok : build_or_update_index encode computeFileId textbooks
      unsupportedByExtension existingMeta0 chunksStore0 embStore0 = .ok r)
    (hzero : r.metadata.total_chunks = 0) :
    r.metadata.index_built = false ∧ r.indexRows = none ∧
      r.docstoreWritten = none := by
  unfold build_or_update_index at hok
  cases hloop : runBuildLoop encode computeFileId CHUNK_SIZE_WORDS
      CHUNK_OVERLAP_WORDS textbooks ⟨existingMeta0, chunksStore0, embStore0, [], [], []⟩ with
  | error e => simp only [hloop] at hok; cases hok
  | ok st =>
    simp only [hloop] at hok
    have hinv : NonemptyCacheInv st :=
      runBuildLoop_nonempty_inv encode computeFileId CHUNK_SIZE_WORDS
        CHUNK_OVERLAP_WORDS textbooks ⟨existingMeta0, chunksStore0, embStore0, [], [], []⟩
        st hloop ⟨hwf, fun _ => rfl⟩
    by_cases hemp : st.allEmbeddings.isEmpty = true
    · rw [if_pos hemp] at hok
      injection hok with h
      rw [← h]
      exact ⟨rfl, rfl, rfl⟩
    · rw [if_neg hemp] at hok
      injection hok with h
      exfalso
      have h0 : st.allChunks.length = 0 := by rw [← h] at hzero; exact hzero
      have hnil : st.allChunks = [] := List.length_eq_zero.mp h0
      have hne : st.allEmbeddings = [] := hinv.2 hnil
      rw [hne] at hemp
      exact hemp rfl

/-- Witness for C7: a build over no textbooks at all returns a normal result
whose metadata has zero chunks, is marked not built, and writes neither index
nor docstore. -/
theorem empty_build_not_built_witness :
    ((⟨⟨0, [], EMBEDDING_MODEL_NAME, none, false, []⟩, none, none, [], [], []⟩ :
        BuildResult Nat).metadata.index_built = false) ∧
      ((⟨⟨0, [], EMBEDDING_MODEL_NAME, none, false, []⟩, none, none, [], [], []⟩ :
        BuildResult Nat).indexRows = none) ∧
      ((⟨⟨0, [], EMBEDDING_MODEL_NAME, none, false, []⟩, none, none, [], [], []⟩ :
        BuildResult Nat).docstoreWritten = none) :=
  empty_build_not_built (fun ts => Except.ok (ts.map String.length))
    (fun _ => "fid") [] [] [] [] [] (fun b c h => nomatch h)
    ⟨⟨0, [], EMBEDDING_MODEL_NAME, none, false, []⟩, none, none, [], [], []⟩
    rfl rfl

/-- Coherence of the on-disk per-file cache with the (deterministic) external
embedder: wherever both artifacts exist for a basename, the embedding matrix
is exactly the embedder applied to the chunk texts, row by row. -/
def EmbCoherence {V : Type} (embedOne : String → V)
    (cs : List (String × List ChunkMeta)) (es : List (String × List V)) : Prop :=
  ∀ b c e, lookupA cs b = some c → lookupA es b = some e →
    e = c.map (fun ch => embedOne ch.text)

/-- The build-loop alignment invariant: cache coherence plus the stacked
accumulated embedding blocks being exactly the embeddings of the accumulated
docstore records, in order. -/
def StackAligned {V : Type} (embedOne : String → V) (st : BuildState V) : Prop :=
  EmbCoherence embedOne st.chunksStore st.embStore ∧
    vstack st.allEmbeddings = st.allChunks.map (fun ch => embedOne ch.text)

theorem processFile_aligned {V : Type}
    (encode : List String → Except String (List V))
    (computeFileId : String → String) (embedOne : String → V) (s o : Nat)
    (hencode : ∀ ts es, encode ts = Except.ok es → es = ts.map embedOne)
    (st : BuildState V) (f : SrcFile) (st1 : BuildState V)
    (hok : processFile encode computeFileId s o st f = .ok st1)
    (hal : StackAligned embedOne st) : StackAligned embedOne st1 := by
  obtain ⟨hcoh, hstack⟩ := hal
  rcases processFile_cases encode computeFileId s o st f st1 hok with
    ⟨c, e, hc, he, rfl⟩ | ⟨entry, rfl⟩ | ⟨text, es, henc, hne, rfl⟩
  · refine ⟨hcoh, ?_⟩
    rw [vstack_append_singleton, hstack, hcoh _ _ _ hc he, List.map_append]
  · exact ⟨hcoh, hstack⟩
  · have hes : es = (mkPerFileChunks (computeFileId f.path) f.path
        (chunkText text s o)).map (fun ch => embedOne ch.text) := by
      rw [hencode _ _ henc]
      conv_lhs => rw [← mkPerFileChunksFrom_text (computeFileId f.path) f.path 0
        (chunkText text s o)]
      rw [List.map_map]
      rfl
    constructor
    · intro b c e hb he2
      rw [lookupA_upsertA] at hb he2
      by_cases hbk : b = computeFileId f.path
      · rw [if_pos hbk] at hb he2
        injection hb with hb1
        injection he2 with he1
        rw [← hb1, ← he1]
        exact hes
      · rw [if_neg hbk] at hb he2
        exact hcoh _ _ _ hb he2
    · rw [vstack_append_singleton, hstack, hes, List.map_append]

theorem runBuildLoop_aligned {V : Type}
    (encode : List String → Except String (List V))
    (computeFileId : String → String) (embedOne : String → V) (s o : Nat)
    (hencode : ∀ ts es, encode ts = Except.ok es → es = ts.map embedOne) :
    ∀ (textbooks : List SrcFile) (st st1 : BuildState V),
      runBuildLoop encode computeFileId s o textbooks st = .ok st1 →
      StackAligned embedOne st → StackAligned embedOne st1 := by
  intro textbooks
  induction textbooks with
  | nil =>
    intro st st1 hok hal
    injection hok with h
    rw [← h]
    exact hal
  | cons f rest ih =>
    intro st st1 hok hal
    unfold runBuildLoop at hok
    cases hpf : processFile encode computeFileId s o st f with
    | error e => rw [hpf] at hok; cases hok
    | ok st2 =>
      rw [hpf] at hok
      exact ih st2 st1 hok
        (processFile_aligned encode computeFileId embedOne s o hencode st f st2 hpf hal)

/-- C1: after every successful build that writes an index, the docstore and
the flat index have the same number of rows, that number is the reported
total chunk count, and row `i` of the index is exactly the embedding of the
chunk described by `docstore[i]` — the per-file (chunks, embeddings) pairs
are concatenated in the same file order into both structures.  The
hypotheses record the collaborator contracts stated by the spec: the embedder embeds one
row per input text deterministically, and the pre-existing cache artifacts
are coherent with that embedder (they were written by earlier builds from
chunk texts and their embeddings). -/
theorem build_docstore_index_alignment {V : Type}
    (encode : List String → Except String (List V))
    (computeFileId : String → String) (embedOne : String → V)
    (textbooks : List SrcFile) (unsupportedByExtension : List String)
    (existingMeta0 : List (String × MetaRec))
    (chunksStore0 : List (String × List ChunkMeta))
    (embStore0 : List (String × List V))
    (hencode : ∀ ts es, encode ts = Except.ok es → es = ts.map embedOne)
    (hcoh : EmbCoherence embedOne chunksStore0 embStore0)
    (r : BuildResult V) (rows : List V) (ds : List ChunkMeta)
    (hok : build_or_update_index encode computeFileId textbooks
      unsupportedByExtension existingMeta0 chunksStore0 embStore0 = .ok r)
    (hrows : r.indexRows = some rows) (hds : r.docstoreWritten = some ds) :
    rows = ds.map (fun ch => embedOne ch.text) ∧
      ds.length = r.metadata.total_chunks ∧ rows.length = ds.length := by
  unfold build_or_update_index at hok
  cases hloop : runBuildLoop encode computeFileId CHUNK_SIZE_WORDS
      CHUNK_OVERLAP_WORDS textbooks ⟨existingMeta0, chunksStore0, embStore0, [], [], []⟩ with
  | error e => simp only [hloop] at hok; cases hok
  | ok st =>
    simp only [hloop] at hok
    have hal : StackAligned embedOne st :=
      runBuildLoop_aligned encode computeFileId embedOne CHUNK_SIZE_WORDS
        CHUNK_OVERLAP_WORDS hencode textbooks
        ⟨existingMeta0, chunksStore0, embStore0, [], [], []⟩ st hloop ⟨hcoh, rfl⟩
    by_cases hemp : st.allEmbeddings.isEmpty = true
    · rw [if_pos hemp] at hok
      injection hok with h
      rw [← h] at hrows
      cases hrows
    · rw [if_neg hemp] at hok
      injection hok with h
      rw [← h] at hrows hds
      have h1 : some (vstack st.allEmbeddings) = some rows := hrows
      have h2 : some st.allChunks = some ds := hds
      injection h1 with h1
      injection h2 with h2
      have hrd : rows = ds.map (fun ch => embedOne ch.text) := by
        rw [← h1, ← h2]
        exact hal.2
      refine ⟨hrd, ?_, ?_⟩
      · rw [← h]
        show ds.length = st.allChunks.length
        rw [h2]
      · rw [hrd, List.length_map]

/-- Witness for C1: a one-file build served entirely from a coherent cache
yields an index whose single row is the embedding (here, the character
length) of the single docstore chunk, with matching lengths and chunk
count. -/
theorem build_docstore_index_alignment_witness :
    ([5] : List Nat) =
        [(⟨"fid::chunk_0", "hello", "f.txt", 0⟩ : ChunkMeta)].map
          (fun ch => String.length ch.text) ∧
      [(⟨"fid::chunk_0", "hello", "f.txt", 0⟩ : ChunkMeta)].length =
        (⟨⟨1, [⟨"f.txt", "fid", 1, 2, "fid"⟩], EMBEDDING_MODEL_NAME,
            some "IndexFlatIP_normalized", true, []⟩,
          some [5], some [⟨"fid::chunk_0", "hello", "f.txt", 0⟩],
          [("f.txt", ⟨"f.txt", "fid", 1, 2, "fid"⟩)],
          [("fid", [⟨"fid::chunk_0", "hello", "f.txt", 0⟩])],
          [("fid", [5])]⟩ : BuildResult Nat).metadata.total_chunks ∧
      ([5] : List Nat).length =
        [(⟨"fid::chunk_0", "hello", "f.txt", 0⟩ : ChunkMeta)].length :=
  build_docstore_index_alignment
    (fun ts => Except.ok (ts.map String.length)) (fun _ => "fid") String.length
    [⟨"f.txt", 1, 2, Except.ok "hello"⟩] []
    [("f.txt", ⟨"f.txt", "fid", 1, 2, "fid"⟩)]
    [("fid", [⟨"fid::chunk_0", "hello", "f.txt", 0⟩])]
    [("fid", [5])]
    (fun ts es h => (Except.ok.inj h).symm)
    (fun b c e hb he => by
      by_cases hbk : b = "fid"
      · subst hbk
        simp only [lookupA, if_pos rfl] at hb he
        injection hb with hb1
        injection he with he1
        rw [← hb1, ← he1]
        rfl
      · simp only [lookupA, if_neg hbk] at hb
        cases hb)
    ⟨⟨1, [⟨"f.txt", "fid", 1, 2, "fid"⟩], EMBEDDING_MODEL_NAME,
        some "IndexFlatIP_normalized", true, []⟩,
      some [5], some [⟨"fid::chunk_0", "hello", "f.txt", 0⟩],
      [("f.txt", ⟨"f.txt", "fid", 1, 2, "fid"⟩)],
      [("fid", [⟨"fid::chunk_0", "hello", "f.txt", 0⟩])],
      [("fid", [5])]⟩
    [5] [⟨"fid::chunk_0", "hello", "f.txt", 0⟩]
    rfl rfl rfl
